import Mathlib

/-!
Verification of the analytics core of a retail decision-support system:
return-risk scoring and policy optimization (inventory service), RFM
computation and quantile scoring (marketing service), and the association-rule
mining and ranking steps shared by the marketing and sales services.

Monetary and rate values are modelled over `ℚ`; transaction tables are lists
of rows; invoice numbers, customer ids and stock codes are numbered by `ℕ`.
-/

namespace DSS

attribute [local semireducible] Rat.add Rat.mul Rat.inv Rat.sub Rat.ofScientific

/-- A row of the inventory service's full transaction table, as loaded by
`get_local_transactions_df` (inventory_api.py): `isReturn` is the
`InvoiceNo.startswith('C')` flag computed at load time, `customerId` is
`none` for anonymous lines (`CustomerID` missing), and revenue is derived as
`Quantity * UnitPrice`. -/
structure TxnRow where
  invoiceNo : ℕ
  isReturn : Bool
  customerId : Option ℕ
  stockCode : ℕ
  quantity : ℤ
  unitPrice : ℚ
deriving DecidableEq, Repr

/-- Derived `Revenue` column: `Quantity * UnitPrice`. -/
def TxnRow.revenue (r : TxnRow) : ℚ := (r.quantity : ℚ) * r.unitPrice

/-- `df['InvoiceNo'].nunique()`: number of distinct invoice numbers. -/
def nInvoices (l : List TxnRow) : ℕ := (l.map (·.invoiceNo)).toFinset.card

/-- `df[df['CustomerID'] == c]`. -/
def customerRows (df : List TxnRow) (c : ℕ) : List TxnRow :=
  df.filter (fun r => decide (r.customerId = some c))

/-- `df[df['StockCode'] == p]`. -/
def productRows (df : List TxnRow) (p : ℕ) : List TxnRow :=
  df.filter (fun r => decide (r.stockCode = p))

/-- `data[data['IsReturn'] == True]`. -/
def returnRows (l : List TxnRow) : List TxnRow := l.filter (·.isReturn)

/-- `data[data['IsNegativeQty'] == True]`, where `IsNegativeQty = Quantity < 0`. -/
def negQtyRows (l : List TxnRow) : List TxnRow :=
  l.filter (fun r => decide (r.quantity < 0))

/-- Customer return rate used inside `simulate_policy` (inventory_api.py,
lines 427-434): the fraction of the customer's distinct invoices flagged as
returns, times 100; `30.0` when the sampled row has no `CustomerID`. The
unreachable `else 15.0` branch of the source is kept verbatim. -/
def simCustomerRate (df : List TxnRow) : Option ℕ → ℚ
  | none => 30
  | some c =>
    let cd := customerRows df c
    if 0 < nInvoices cd then
      (nInvoices (returnRows cd) : ℚ) / (nInvoices cd : ℚ) * 100
    else 15

/-- Product return rate used inside `simulate_policy` (lines 436-440), with
the source's unreachable `else 10.0` branch kept verbatim. -/
def simProductRate (df : List TxnRow) (p : ℕ) : ℚ :=
  let pdt := productRows df p
  if 0 < nInvoices pdt then
    (nInvoices (returnRows pdt) : ℚ) / (nInvoices pdt : ℚ) * 100
  else 10

/-- Per-sampled-order risk score of `simulate_policy` and
`get_risk_distribution` (lines 442-444): `min(100, max(0, cr*0.6 + pr*0.4))`. -/
def simRiskScore (df : List TxnRow) (r : TxnRow) : ℚ :=
  min 100 (max 0 (simCustomerRate df r.customerId * (6/10) +
    simProductRate df r.stockCode * (4/10)))

/-- `calc_expected_profit` (lines 452-463): an order is `Blocked` when its
`RiskScore >= threshold_tau`; cost is assumed to be 30% of revenue. -/
def expectedProfit (conversionImpact returnCost tau risk revenue : ℚ) : ℚ :=
  let baseProfit := revenue - revenue * (3/10)
  if tau ≤ risk then baseProfit * (1 - conversionImpact)
  else baseProfit - risk / 100 * returnCost

/-- The exact total expected profit of the simulated sample at threshold
`tau` (line 468), before the response rounds it. -/
def totalExpectedProfit (df sample : List TxnRow) (tau returnCost conversionImpact : ℚ) : ℚ :=
  (sample.map (fun r =>
    expectedProfit conversionImpact returnCost tau (simRiskScore df r) r.revenue)).sum

/-- Round half to even to an integer: the semantics of Python's `round`. -/
def roundHalfEven (q : ℚ) : ℤ :=
  if q - ⌊q⌋ < 1/2 then ⌊q⌋
  else if 1/2 < q - ⌊q⌋ then ⌊q⌋ + 1
  else if ⌊q⌋ % 2 = 0 then ⌊q⌋ else ⌊q⌋ + 1

/-- Python `round(x, 2)`, as applied to `total_expected_profit` (line 488). -/
def round2 (q : ℚ) : ℚ := (roundHalfEven (q * 100) : ℚ) / 100

/-- The `total_expected_profit` field reported by `simulate_policy` and
consumed by `find_optimal_threshold` (lines 488 and 522-529): the exact sum
rounded to two decimal places. -/
def simulatePolicyProfit (df sample : List TxnRow) (tau returnCost conversionImpact : ℚ) : ℚ :=
  round2 (totalExpectedProfit df sample tau returnCost conversionImpact)

/-- The candidate grid `list(range(0, 101, 5))` (line 511). -/
def tauGrid : List ℕ := (List.range 21).map (· * 5)

/-- Python `max(results, key=...)` over the non-empty list `t :: ts`: the
first element attaining the maximal key is returned, so earlier (smaller)
grid values win ties. -/
def argmaxFirst (f : ℕ → ℚ) : ℕ → List ℕ → ℕ
  | t, [] => t
  | t, u :: us =>
    let b := argmaxFirst f u us
    if f t < f b then b else t

/-- `find_optimal_threshold` (lines 499-532): grid search over `tauGrid`,
each candidate evaluated by `simulate_policy` on the same
`random_state=42`-fixed sample of positive (non-return) rows, compared by the
rounded reported profit. -/
def find_optimal_threshold (df sample : List TxnRow) (returnCost conversionImpact : ℚ) : ℕ :=
  match tauGrid with
  | [] => 0
  | t :: ts =>
    argmaxFirst (fun tau => simulatePolicyProfit df sample (tau : ℚ) returnCost conversionImpact) t ts

theorem argmaxFirst_spec (f : ℕ → ℚ) (t : ℕ) (ts : List ℕ) :
    (argmaxFirst f t ts = t ∨ argmaxFirst f t ts ∈ ts) ∧
    f t ≤ f (argmaxFirst f t ts) ∧ ∀ x ∈ ts, f x ≤ f (argmaxFirst f t ts) := by
  induction ts generalizing t with
  | nil => exact ⟨Or.inl rfl, le_refl _, by simp⟩
  | cons u us ih =>
    obtain ⟨hmem, hhead, hall⟩ := ih u
    simp only [argmaxFirst]
    split
    · rename_i hlt
      refine ⟨Or.inr ?_, le_of_lt hlt, ?_⟩
      · rcases hmem with h | h
        · simp [h]
        · exact List.mem_cons_of_mem _ h
      · intro x hx
        rcases List.mem_cons.mp hx with h | h
        · exact h ▸ hhead
        · exact hall x h
    · rename_i hnlt
      push_neg at hnlt
      refine ⟨Or.inl rfl, le_refl _, ?_⟩
      intro x hx
      rcases List.mem_cons.mp hx with h | h
      · exact h ▸ le_trans hhead hnlt
      · exact le_trans (hall x h) hnlt

theorem argmaxFirst_tie_min (f : ℕ → ℚ) (t : ℕ) (ts : List ℕ)
    (hp : (t :: ts).Pairwise (· < ·)) :
    ∀ x, (x = t ∨ x ∈ ts) → f x = f (argmaxFirst f t ts) → argmaxFirst f t ts ≤ x := by
  induction ts generalizing t with
  | nil =>
    intro x hx _
    simp only [argmaxFirst]
    rcases hx with h | h
    · exact h ▸ le_refl _
    · cases h
  | cons u us ih =>
    have ht : ∀ y ∈ u :: us, t < y := (List.pairwise_cons.mp hp).1
    have hp' : (u :: us).Pairwise (· < ·) := (List.pairwise_cons.mp hp).2
    intro x hx heq
    simp only [argmaxFirst] at heq ⊢
    split at heq
    · rename_i hlt
      simp only [if_pos hlt]
      rcases hx with h | h
      · exact absurd (h ▸ heq ▸ hlt) (lt_irrefl _)
      · exact ih u hp' x (List.mem_cons.mp h) heq
    · rename_i hnlt
      simp only [if_neg hnlt]
      rcases hx with h | h
      · exact h ▸ le_refl _
      · exact le_of_lt (ht x h)

theorem tauGrid_eq :
    tauGrid = [0, 5, 10, 15, 20, 25, 30, 35, 40, 45, 50, 55, 60, 65, 70, 75, 80,
      85, 90, 95, 100] := by decide

theorem tauGrid_cons : tauGrid = 0 :: tauGrid.tail := by
  rw [tauGrid_eq]
  rfl

/-- C1 (amended): `find_optimal_threshold` sweeps the grid {0,5,...,100};
per order, blocked iff risk ≥ τ, with expected profit
`base_profit*(1-conversion_impact)` when blocked and
`base_profit - (risk/100)*return_processing_cost` when allowed, where
`base_profit = revenue*(1-0.3)`; the returned τ maximizes the candidates'
summed expected profit *after it is rounded to 2 decimal places* (the value
reported by `simulate_policy`), with ties resolved by the smallest τ. -/
theorem find_optimal_threshold_spec (df sample : List TxnRow) (rc ci : ℚ) :
    find_optimal_threshold df sample rc ci ∈ tauGrid ∧
    (∀ tau ∈ tauGrid, simulatePolicyProfit df sample (tau : ℚ) rc ci ≤
      simulatePolicyProfit df sample ((find_optimal_threshold df sample rc ci : ℕ) : ℚ) rc ci) ∧
    (∀ tau ∈ tauGrid, simulatePolicyProfit df sample (tau : ℚ) rc ci =
      simulatePolicyProfit df sample ((find_optimal_threshold df sample rc ci : ℕ) : ℚ) rc ci →
      find_optimal_threshold df sample rc ci ≤ tau) ∧
    (∀ tau risk rev : ℚ,
      (tau ≤ risk →
        expectedProfit ci rc tau risk rev = rev * (1 - 3/10) * (1 - ci)) ∧
      (risk < tau →
        expectedProfit ci rc tau risk rev = rev * (1 - 3/10) - risk / 100 * rc)) := by
  have heq : find_optimal_threshold df sample rc ci =
      argmaxFirst (fun tau => simulatePolicyProfit df sample (tau : ℚ) rc ci) 0
        tauGrid.tail := rfl
  obtain ⟨hmem, hhead, hall⟩ := argmaxFirst_spec
    (fun tau => simulatePolicyProfit df sample (tau : ℚ) rc ci) 0 tauGrid.tail
  have htie := argmaxFirst_tie_min
    (fun tau => simulatePolicyProfit df sample (tau : ℚ) rc ci) 0 tauGrid.tail
    (by rw [← tauGrid_cons]; decide)
  refine ⟨?_, ?_, ?_, ?_⟩
  · rw [heq, tauGrid_cons]
    rcases hmem with h | h
    · exact List.mem_cons.mpr (Or.inl h)
    · exact List.mem_cons.mpr (Or.inr h)
  · intro tau htau
    rw [tauGrid_cons] at htau
    rw [heq]
    rcases List.mem_cons.mp htau with h | h
    · subst h
      exact hhead
    · exact hall tau h
  · intro tau htau hproof
    rw [tauGrid_cons] at htau
    rw [heq]
    refine htie tau (List.mem_cons.mp htau) ?_
    rw [← heq]
    exact hproof
  · intro tau risk rev
    constructor
    · intro h
      simp only [expectedProfit, if_pos h]
      ring
    · intro h
      simp only [expectedProfit, if_neg (not_le.mpr h)]
      ring

/-- Witness for `find_optimal_threshold_spec` at a concrete sample. -/
theorem find_optimal_threshold_spec_witness :
    simulatePolicyProfit [] [] ((55 : ℕ) : ℚ) 10 (1/5) ≤
      simulatePolicyProfit [] [] ((find_optimal_threshold [] [] 10 (1/5) : ℕ) : ℚ) 10 (1/5) :=
  (find_optimal_threshold_spec [] [] 10 (1/5)).2.1 55 (by decide)

/-- The table and sample refuting claim C1 as stated: one positive order of
a customer and product whose return history gives risk exactly 50. -/
def dfC1 : List TxnRow := [⟨1, false, some 1, 7, 1, 893/25⟩, ⟨2, true, some 1, 7, -1, 893/25⟩]

set_option maxRecDepth 100000 in
set_option maxHeartbeats 1000000 in
/-- C1 (counterexample): `find_optimal_threshold` compares the profits only
after `simulate_policy` has rounded them to 2 decimals, so sub-cent profit
differences collapse: on `dfC1` the exact summed profit at τ = 55 (20.004)
strictly exceeds the one at τ = 0 (20.0032), yet both round to 20.00 and the
search returns τ = 0, which is not profit-maximal in the exact sense the
claim states. -/
theorem find_optimal_threshold_not_exact_argmax :
    find_optimal_threshold dfC1 [⟨1, false, some 1, 7, 1, 893/25⟩] 10 (1/5) = 0 ∧
    (55 : ℕ) ∈ tauGrid ∧
    totalExpectedProfit dfC1 [⟨1, false, some 1, 7, 1, 893/25⟩] 0 10 (1/5) <
      totalExpectedProfit dfC1 [⟨1, false, some 1, 7, 1, 893/25⟩] 55 10 (1/5) := by
  decide

/-- Customer factor of `calculate_risk_score` (inventory_api.py, lines
318-333): for a seen customer the returned-invoice rate is combined with the
negative-quantity-invoice rate by `max`; `30.0` for an unseen customer. The
source's unreachable `else` branches are kept verbatim. -/
def calcCustomerRate (df : List TxnRow) (c : ℕ) : ℚ :=
  let cd := customerRows df c
  if cd = [] then 30
  else
    let r1 := if 0 < nInvoices cd then
      (nInvoices (returnRows cd) : ℚ) / (nInvoices cd : ℚ) * 100 else 15
    let r2 := if 0 < nInvoices cd then
      (nInvoices (negQtyRows cd) : ℚ) / (nInvoices cd : ℚ) * 100 else 0
    max r1 r2

/-- Product factor of `calculate_risk_score` (lines 335-350): `max` of the
returned-invoice rate and the negative-quantity-invoice rate; `20.0` for an
unseen product. -/
def calcProductRate (df : List TxnRow) (p : ℕ) : ℚ :=
  let pdt := productRows df p
  if pdt = [] then 20
  else
    let r1 := if 0 < nInvoices pdt then
      (nInvoices (returnRows pdt) : ℚ) / (nInvoices pdt : ℚ) * 100 else 10
    let r2 := if 0 < nInvoices pdt then
      (nInvoices (negQtyRows pdt) : ℚ) / (nInvoices pdt : ℚ) * 100 else 0
    max r1 r2

/-- Quantity anomaly term (lines 352-356): `min(100, q / avg_quantity * 30)`
where `avg_quantity` is the mean positive quantity, defaulting to 1 when no
positive-quantity rows exist. -/
def quantityRisk (df : List TxnRow) (q : ℤ) : ℚ :=
  let pos := df.filter (fun r => decide (0 < r.quantity))
  let avgQ : ℚ := if pos = [] then 1 else (pos.map (fun r => (r.quantity : ℚ))).sum / (pos.length : ℚ)
  min 100 ((q : ℚ) / avgQ * 30)

/-- Value anomaly term (lines 358-364): `min(100, deviation * 50)` where the
deviation is relative to the mean positive revenue (default 100 when no
positive-revenue rows exist; deviation 0 when that mean is ≤ 0). -/
def valueRisk (df : List TxnRow) (q : ℤ) (price : ℚ) : ℚ :=
  let ov : ℚ := (q : ℚ) * price
  let posRev := df.filter (fun r => decide (0 < r.revenue))
  let avgOV : ℚ := if posRev = [] then 100 else (posRev.map (·.revenue)).sum / (posRev.length : ℚ)
  let dev : ℚ := if 0 < avgOV then |ov - avgOV| / avgOV else 0
  min 100 (dev * 50)

/-- `calculate_risk_score` (lines 301-373): the weighted sum
`0.4*cr + 0.3*pr + 0.2*qr + 0.1*vr` clamped to [0,100]; `50.0` when the
transaction table is empty. -/
def calculate_risk_score (df : List TxnRow) (c p : ℕ) (q : ℤ) (price : ℚ) : ℚ :=
  if df = [] then 50
  else max 0 (min 100 (calcCustomerRate df c * (4/10) + calcProductRate df p * (3/10) +
    quantityRisk df q * (2/10) + valueRisk df q price * (1/10)))

/-- The risk score exactly as claim C2 words it: the customer and product
rates are the plain returned-invoice ratios (with defaults 30 and 20 for
unseen entities) and the negative-quantity rates do not enter; written from
the claim only to compare it against `calculate_risk_score`. -/
def riskScoreClaimC2 (df : List TxnRow) (c p : ℕ) (q : ℤ) (price : ℚ) : ℚ :=
  let crClaim : ℚ := if customerRows df c = [] then 30
    else 100 * ((nInvoices (returnRows (customerRows df c)) : ℚ) / (nInvoices (customerRows df c) : ℚ))
  let prClaim : ℚ := if productRows df p = [] then 20
    else 100 * ((nInvoices (returnRows (productRows df p)) : ℚ) / (nInvoices (productRows df p) : ℚ))
  max 0 (min 100 ((4/10) * crClaim + (3/10) * prClaim +
    (2/10) * quantityRisk df q + (1/10) * valueRisk df q price))

/-- The table refuting claim C2 as stated: customer 5's only invoice has a
negative quantity but a plain (non-'C') invoice number, so its
returned-invoice count is 0 while its negative-quantity rate is 100. -/
def dfC2 : List TxnRow := [⟨1, false, some 5, 3, -3, 1⟩, ⟨2, false, some 6, 3, 2, 5⟩]

/-- C2 (counterexample): on `dfC2` the source blends in the
negative-quantity rates (customer rate max(0,100)=100, product rate
max(0,50)=50) giving risk 61, while the formula the claim states gives 6. -/
theorem calculate_risk_score_ne_claim :
    calculate_risk_score dfC2 5 3 2 5 = 61 ∧ riskScoreClaimC2 dfC2 5 3 2 5 = 6 ∧
    (61 : ℚ) ≠ 6 := by decide

theorem nInvoices_pos {l : List TxnRow} (h : l ≠ []) : 0 < nInvoices l := by
  match l, h with
  | r :: t, _ =>
    apply Finset.card_pos.mpr
    exact ⟨r.invoiceNo, by simp [nInvoices]⟩

theorem calculate_risk_score_bounds (df : List TxnRow) (c p : ℕ) (q : ℤ) (price : ℚ) :
    0 ≤ calculate_risk_score df c p q price ∧ calculate_risk_score df c p q price ≤ 100 := by
  unfold calculate_risk_score
  split
  · norm_num
  · exact ⟨le_max_left 0 _, max_le (by norm_num) (min_le_left _ _)⟩

/-- C2 (amended): for every non-empty table, `calculate_risk_score` is the
clamped weighted sum `0.4*cr + 0.3*pr + 0.2*quantity_anomaly +
0.1*value_anomaly` where the customer rate is the `max` of the
returned-invoice ratio and the negative-quantity-invoice ratio (default 30
when unseen), the product rate likewise (default 20 when unseen); the result
always lies in [0,100]. -/
theorem calculate_risk_score_spec (df : List TxnRow) (c p : ℕ) (q : ℤ) (price : ℚ)
    (h : df ≠ []) :
    calculate_risk_score df c p q price =
      max 0 (min 100 (
        (4/10) * (if customerRows df c = [] then 30 else
          max (100 * ((nInvoices (returnRows (customerRows df c)) : ℚ) / (nInvoices (customerRows df c) : ℚ)))
              (100 * ((nInvoices (negQtyRows (customerRows df c)) : ℚ) / (nInvoices (customerRows df c) : ℚ)))) +
        (3/10) * (if productRows df p = [] then 20 else
          max (100 * ((nInvoices (returnRows (productRows df p)) : ℚ) / (nInvoices (productRows df p) : ℚ)))
              (100 * ((nInvoices (negQtyRows (productRows df p)) : ℚ) / (nInvoices (productRows df p) : ℚ)))) +
        (2/10) * quantityRisk df q + (1/10) * valueRisk df q price)) ∧
    0 ≤ calculate_risk_score df c p q price ∧ calculate_risk_score df c p q price ≤ 100 := by
  have hcr : calcCustomerRate df c = (if customerRows df c = [] then 30 else
      max (100 * ((nInvoices (returnRows (customerRows df c)) : ℚ) / (nInvoices (customerRows df c) : ℚ)))
          (100 * ((nInvoices (negQtyRows (customerRows df c)) : ℚ) / (nInvoices (customerRows df c) : ℚ)))) := by
    simp only [calcCustomerRate]
    split
    · rfl
    · rename_i hne
      rw [if_pos (nInvoices_pos hne), if_pos (nInvoices_pos hne)]
      rw [mul_comm _ (100 : ℚ), mul_comm _ (100 : ℚ)]
  have hpr : calcProductRate df p = (if productRows df p = [] then 20 else
      max (100 * ((nInvoices (returnRows (productRows df p)) : ℚ) / (nInvoices (productRows df p) : ℚ)))
          (100 * ((nInvoices (negQtyRows (productRows df p)) : ℚ) / (nInvoices (productRows df p) : ℚ)))) := by
    simp only [calcProductRate]
    split
    · rfl
    · rename_i hne
      rw [if_pos (nInvoices_pos hne), if_pos (nInvoices_pos hne)]
      rw [mul_comm _ (100 : ℚ), mul_comm _ (100 : ℚ)]
  have hdef : calculate_risk_score df c p q price =
      max 0 (min 100 (calcCustomerRate df c * (4/10) + calcProductRate df p * (3/10) +
        quantityRisk df q * (2/10) + valueRisk df q price * (1/10))) := by
    unfold calculate_risk_score
    rw [if_neg h]
  refine ⟨?_, (calculate_risk_score_bounds df c p q price).1,
    (calculate_risk_score_bounds df c p q price).2⟩
  rw [hdef, hcr, hpr]
  congr 1
  congr 1
  ring

/-- Witness for `calculate_risk_score_spec` at the concrete table `dfC2`. -/
theorem calculate_risk_score_spec_witness :
    0 ≤ calculate_risk_score dfC2 5 3 2 5 ∧ calculate_risk_score dfC2 5 3 2 5 ≤ 100 :=
  ⟨(calculate_risk_score_spec dfC2 5 3 2 5 (by decide)).2.1,
   (calculate_risk_score_spec dfC2 5 3 2 5 (by decide)).2.2⟩

/-- Risk level labelling (inventory_api.py, lines 375-381). -/
def riskLevel (s : ℚ) : String :=
  if s < 33 then "Low" else if s < 67 then "Medium" else "High"

/-- C4: the risk level is "Low" exactly below 33, "Medium" exactly on
[33,67), "High" exactly from 67 on; the boundaries are fixed constants, with
32.999 → Low, 33 → Medium, 66.999 → Medium, 67 → High; and every score
`calculate_risk_score` produces lies in [0,100]. -/
theorem riskLevel_boundaries :
    (∀ s : ℚ, (riskLevel s = "Low" ↔ s < 33) ∧
      (riskLevel s = "Medium" ↔ 33 ≤ s ∧ s < 67) ∧
      (riskLevel s = "High" ↔ 67 ≤ s)) ∧
    riskLevel (32999/1000) = "Low" ∧ riskLevel 33 = "Medium" ∧
    riskLevel (66999/1000) = "Medium" ∧ riskLevel 67 = "High" ∧
    (∀ df c p q price, 0 ≤ calculate_risk_score df c p q price ∧
      calculate_risk_score df c p q price ≤ 100) := by
  refine ⟨?_, by decide, by decide, by decide, by decide, ?_⟩
  · intro s
    unfold riskLevel
    split_ifs with h1 h2
    · exact ⟨iff_of_true rfl h1,
        iff_of_false (by decide) (fun hs => absurd hs.1 (not_le.mpr h1)),
        iff_of_false (by decide) (not_le.mpr (h1.trans_le (by norm_num)))⟩
    · exact ⟨iff_of_false (by decide) h1,
        iff_of_true rfl ⟨le_of_not_lt h1, h2⟩,
        iff_of_false (by decide) (not_le.mpr h2)⟩
    · exact ⟨iff_of_false (by decide) h1,
        iff_of_false (by decide) (fun hs => h2 hs.2),
        iff_of_true rfl (le_of_not_lt h2)⟩
  · intro df c p q price
    exact calculate_risk_score_bounds df c p q price

/-- C10: inside `simulate_policy` (and hence in every candidate evaluation of
`find_optimal_threshold`) a sampled order's risk is
`min(100, max(0, 0.6*customer_rate + 0.4*product_rate))` — the quantity and
value anomaly terms of `calculate_risk_score` do not appear — and the
customer rate is the default 30 when the row has no `CustomerID`; the score
lies in [0,100]. -/
theorem simRiskScore_formula (df : List TxnRow) (r : TxnRow) :
    simRiskScore df r =
      min 100 (max 0 ((6/10) * simCustomerRate df r.customerId +
        (4/10) * simProductRate df r.stockCode)) ∧
    (r.customerId = none → simCustomerRate df r.customerId = 30) ∧
    0 ≤ simRiskScore df r ∧ simRiskScore df r ≤ 100 := by
  refine ⟨?_, ?_, ?_, ?_⟩
  · unfold simRiskScore
    congr 1
    congr 1
    ring
  · intro hnone
    rw [hnone]
    rfl
  · unfold simRiskScore
    exact le_min (by norm_num) (le_max_left 0 _)
  · unfold simRiskScore
    exact min_le_left _ _

/-- Witness for `simRiskScore_formula` at a row with no customer id. -/
theorem simRiskScore_formula_witness :
    simCustomerRate [] none = 30 ∧ 0 ≤ simRiskScore [] ⟨1, false, none, 2, 1, 1⟩ :=
  ⟨(simRiskScore_formula [] ⟨1, false, none, 2, 1, 1⟩).2.1 rfl,
   (simRiskScore_formula [] ⟨1, false, none, 2, 1, 1⟩).2.2.1⟩

/-- A cleaned transaction row as served to the marketing service by
`get_transactions_df` (db_utils.py): cancelled invoices are excluded and
`Quantity > 0`, `UnitPrice > 0` already hold; `ts` is the invoice timestamp
in seconds; `customerId` is `none` on anonymous lines (dropped by
`groupby('CustomerID')`); `revenue = Quantity * UnitPrice`. -/
structure MLine where
  customerId : Option ℕ
  invoiceNo : ℕ
  ts : ℕ
  revenue : ℚ
deriving DecidableEq, Repr

/-- One day, in the seconds of `MLine.ts`. -/
def oneDay : ℕ := 86400

/-- The group keys of `df.groupby('CustomerID')` (missing ids are dropped). -/
def customersOf (df : List MLine) : Finset ℕ := (df.filterMap (·.customerId)).toFinset

/-- The lines of one customer's group. -/
def rowsOf (df : List MLine) (c : ℕ) : List MLine :=
  df.filter (fun r => decide (r.customerId = some c))

/-- `df['InvoiceDate'].max()` over the filtered table. -/
def maxTs (df : List MLine) : ℕ := (df.map (·.ts)).foldr max 0

/-- `reference_date = df['InvoiceDate'].max() + pd.Timedelta(days=1)`
(marketing_api.py, line 348). -/
def referenceTs (df : List MLine) : ℕ := maxTs df + oneDay

/-- The customer's `InvoiceDate.max()`. -/
def lastPurchase (df : List MLine) (c : ℕ) : ℕ := ((rowsOf df c).map (·.ts)).foldr max 0

/-- Recency: `(reference_date - x.max()).days` (line 352); `Timedelta.days`
floors, which is natural division by `oneDay` here. -/
def recency (df : List MLine) (c : ℕ) : ℕ := (referenceTs df - lastPurchase df c) / oneDay

/-- Frequency: `'InvoiceNo': 'nunique'` (line 353). -/
def frequency (df : List MLine) (c : ℕ) : ℕ := ((rowsOf df c).map (·.invoiceNo)).toFinset.card

/-- Monetary: `'Revenue': 'sum'` (line 354). -/
def monetary (df : List MLine) (c : ℕ) : ℚ := ((rowsOf df c).map (·.revenue)).sum

theorem le_foldr_max {l : List ℕ} {x : ℕ} (h : x ∈ l) : x ≤ l.foldr max 0 := by
  induction l with
  | nil => cases h
  | cons a t ih =>
    rcases List.mem_cons.mp h with h' | h'
    · exact h' ▸ le_max_left _ _
    · exact le_trans (ih h') (le_max_right _ _)

theorem foldr_max_le {l : List ℕ} {b : ℕ} (h : ∀ x ∈ l, x ≤ b) : l.foldr max 0 ≤ b := by
  induction l with
  | nil => exact Nat.zero_le b
  | cons a t ih =>
    exact max_le (h a (List.mem_cons_self a t)) (ih (fun x hx => h x (List.mem_cons_of_mem a hx)))

theorem lastPurchase_le_maxTs (df : List MLine) (c : ℕ) : lastPurchase df c ≤ maxTs df := by
  apply foldr_max_le
  intro x hx
  obtain ⟨r, hr, hrx⟩ := List.mem_map.mp hx
  exact hrx ▸ le_foldr_max (List.mem_map.mpr ⟨r, List.mem_of_mem_filter hr, rfl⟩)

theorem rowsOf_ne_nil {df : List MLine} {c : ℕ} (hc : c ∈ customersOf df) :
    rowsOf df c ≠ [] := by
  obtain ⟨r, hr, hrc⟩ := List.mem_filterMap.mp (List.mem_toFinset.mp hc)
  intro hnil
  have : r ∈ rowsOf df c := List.mem_filter.mpr ⟨hr, by simp [hrc]⟩
  rw [hnil] at this
  cases this

/-- C5: for every non-empty filtered table and every customer in it,
recency = (reference − last purchase) in floored days with
reference = max timestamp + 1 day over the filtered table, hence recency ≥ 1;
frequency is the distinct-invoice count, hence ≥ 1; monetary is the
customer's revenue sum. -/
theorem rfm_per_customer (df : List MLine) (c : ℕ) (hc : c ∈ customersOf df) :
    recency df c = (maxTs df + oneDay - lastPurchase df c) / oneDay ∧
    1 ≤ recency df c ∧
    1 ≤ frequency df c ∧
    monetary df c = ((rowsOf df c).map (·.revenue)).sum := by
  refine ⟨rfl, ?_, ?_, rfl⟩
  · have hle := lastPurchase_le_maxTs df c
    have : oneDay ≤ referenceTs df - lastPurchase df c := by
      unfold referenceTs
      omega
    calc 1 = oneDay / oneDay := by norm_num [oneDay]
    _ ≤ (referenceTs df - lastPurchase df c) / oneDay := Nat.div_le_div_right this
  · have hne := rowsOf_ne_nil hc
    match h : rowsOf df c, hne with
    | r :: t, _ =>
      apply Finset.card_pos.mpr
      refine ⟨r.invoiceNo, ?_⟩
      rw [List.mem_toFinset, h]
      exact List.mem_map.mpr ⟨r, List.mem_cons_self _ _, rfl⟩

/-- Witness for `rfm_per_customer` at a one-line table. -/
theorem rfm_per_customer_witness :
    1 ≤ recency [⟨some 1, 1, 0, 5⟩] 1 ∧ 1 ≤ frequency [⟨some 1, 1, 0, 5⟩] 1 :=
  ⟨(rfm_per_customer [⟨some 1, 1, 0, 5⟩] 1 (by decide)).2.1,
   (rfm_per_customer [⟨some 1, 1, 0, 5⟩] 1 (by decide)).2.2.1⟩

/-- One row of the computed RFM table. -/
structure RFMRow where
  customerId : ℕ
  recencyDays : ℕ
  freq : ℕ
  monetaryV : ℚ
deriving DecidableEq, Repr

/-- The ascending list of distinct customer ids, the group keys of
`groupby('CustomerID')` (which sorts keys). -/
def sortedCustomers (df : List MLine) : List ℕ :=
  ((df.filterMap (·.customerId)).dedup).insertionSort (· ≤ ·)

/-- The per-customer RFM table built by the `groupby('CustomerID').agg`
of `calculate_rfm_advanced` / `run_segmentation` (marketing_api.py, lines
351-357 and 429-435). -/
def rfmTable (df : List MLine) : List RFMRow :=
  (sortedCustomers df).map (fun c => ⟨c, recency df c, frequency df c, monetary df c⟩)

/-- `filter_by_date_range` (db_utils.py): keep `ts ≥ start` (midnight) and
`ts ≤ end + 1 day − 1 second`; `none` bounds are not applied. Day-number
bounds are converted to seconds. -/
def filterByDateRange (df : List MLine) (startD endD : Option ℕ) : List MLine :=
  let df1 := match startD with
    | none => df
    | some s => df.filter (fun r => decide (s * oneDay ≤ r.ts))
  match endD with
  | none => df1
  | some e => df1.filter (fun r => decide (r.ts ≤ e * oneDay + oneDay - 1))

/-- `calculate_rfm_advanced` (marketing_api.py, lines 325-406): 404 errors
when the table, or the date-filtered table, is empty; otherwise it computes
and returns the RFM table with no minimum-population check. -/
def calculate_rfm_advanced (df : List MLine) (startD endD : Option ℕ) :
    Except String (List RFMRow) :=
  if df = [] then .error "No transaction data found"
  else if filterByDateRange df startD endD = [] then
    .error "No transactions in selected date range"
  else .ok (rfmTable (filterByDateRange df startD endD))

/-- `run_segmentation` (lines 408-491): same loading and filtering, then a
400 error `"Not enough data for segmentation"` when the RFM table has fewer
than 5 customers; the segment summary itself is elided, the per-customer RFM
rows are returned. -/
def run_segmentation (df : List MLine) (startD endD : Option ℕ) :
    Except String (List RFMRow) :=
  if df = [] then .error "No transaction data found"
  else if filterByDateRange df startD endD = [] then
    .error "No transactions in selected date range"
  else if (rfmTable (filterByDateRange df startD endD)).length < 5 then
    .error "Not enough data for segmentation"
  else .ok (rfmTable (filterByDateRange df startD endD))

/-- A one-customer, one-line table. -/
def dfC6 : List MLine := [⟨some 1, 1, 0, 5⟩]

/-- C6 (counterexample): `calculate_rfm_advanced` succeeds on a population
of 1 customer — it has no minimum-population check at all. -/
theorem calculate_rfm_advanced_no_min_population :
    (customersOf dfC6).card = 1 ∧
    calculate_rfm_advanced dfC6 none none = .ok [⟨1, 1, 1, 5⟩] := by
  constructor
  · decide
  · rfl

theorem filterByDateRange_nil (startD endD : Option ℕ) :
    filterByDateRange [] startD endD = [] := by
  unfold filterByDateRange
  cases startD <;> cases endD <;> rfl

theorem rfmTable_length (df : List MLine) : (rfmTable df).length = (customersOf df).card := by
  unfold rfmTable sortedCustomers customersOf
  rw [List.length_map, List.length_insertionSort, List.card_toFinset]

/-- C6 (amended): `calculate_rfm_advanced` succeeds exactly when the
date-filtered table is non-empty — it enforces no minimum customer
population; only `run_segmentation` additionally fails (HTTP 400, "Not
enough data for segmentation") when the filtered population has fewer than 5
customers. -/
theorem rfm_endpoints_population_check (df : List MLine) (startD endD : Option ℕ) :
    ((calculate_rfm_advanced df startD endD).isOk = true ↔
      filterByDateRange df startD endD ≠ []) ∧
    ((run_segmentation df startD endD).isOk = true ↔
      (filterByDateRange df startD endD ≠ [] ∧
        5 ≤ (customersOf (filterByDateRange df startD endD)).card)) := by
  constructor
  · unfold calculate_rfm_advanced
    split
    · rename_i hdf
      subst hdf
      simp [Except.isOk, Except.toBool, filterByDateRange_nil]
    · split
      · rename_i hf
        simp [Except.isOk, Except.toBool, hf]
      · rename_i hf
        simp [Except.isOk, Except.toBool, hf]
  · unfold run_segmentation
    split
    · rename_i hdf
      subst hdf
      simp [Except.isOk, Except.toBool, filterByDateRange_nil]
    · split
      · rename_i hf
        simp [Except.isOk, Except.toBool, hf]
      · rename_i hf
        split
        · rename_i hlt
          rw [rfmTable_length] at hlt
          simp [Except.isOk, Except.toBool, hf]
          omega
        · rename_i hge
          rw [rfmTable_length] at hge
          simp [Except.isOk, Except.toBool, hf]
          omega

/-- Linear-interpolation quantile of a sorted list: the semantics of
`pandas.Series.quantile(q)` with the default "linear" interpolation, the
step `pd.qcut` uses to compute its bin edges. -/
def quantileAt (l : List ℚ) (q : ℚ) : ℚ :=
  let pos : ℚ := q * ((l.length : ℚ) - 1)
  let f : ℕ := (⌊pos⌋).toNat
  let a : ℚ := l.getD f 0
  let b : ℚ := l.getD (f + 1) a
  a + (pos - (f : ℚ)) * (b - a)

/-- The 6 quintile boundaries `Series.quantile([0, .2, .4, .6, .8, 1])`
computed by `pd.qcut(col, q=5)`. -/
def edges (vals : List ℚ) : List ℚ :=
  (List.range 6).map (fun (j : ℕ) => quantileAt (vals.insertionSort (· ≤ ·)) ((j : ℚ) / 5))

/-- `np.unique` on the bin edges: ascending sort plus deduplication — the
`duplicates="drop"` step of `pd.qcut`. -/
def uniqueEdges (es : List ℚ) : List ℚ := (es.insertionSort (· ≤ ·)).dedup

/-- One value's bucket id under `pd.qcut(_, labels=False, duplicates="drop")`
with edge list `bins` (pandas `_bins_to_cuts`): `searchsorted` with side
"left" (the count of edges `< x`), the `include_lowest` adjustment
(`ids[x == bins[0]] = 1`), and the mask turning out-of-range ids into
missing values (`none`, pandas `NaN`). -/
def cutCode (bins : List ℚ) (x : ℚ) : Option ℕ :=
  let i0 := bins.countP (fun b => decide (b < x))
  let i := if bins.getD 0 0 = x then 1 else i0
  if i = 0 ∨ i = bins.length then none else some (i - 1)

/-- `pd.qcut(vals, q=5, labels=False, duplicates="drop")`, the quantile
scoring applied to the RFM columns (marketing_api.py, lines 362-367). -/
def qcutDrop5 (vals : List ℚ) : List (Option ℕ) :=
  vals.map (cutCode (uniqueEdges (edges vals)))

/-- `F_Score` / `M_Score`: bucket code + 1 (lines 366-367). -/
def fmScore (vals : List ℚ) : List (Option ℕ) := (qcutDrop5 vals).map (Option.map (· + 1))

/-- `R_Score`: `6 - (code + 1)` (lines 363-364). -/
def rScore (vals : List ℚ) : List (Option ℕ) := (qcutDrop5 vals).map (Option.map (fun k => 5 - k))

/-- C8 (counterexample): when one metric's values are all identical (here two
customers with the same value), every quintile boundary collapses to that
value, `duplicates="drop"` leaves a single edge, and `pd.qcut` emits missing
values: the resulting scores are `none` (pandas `NaN`), not numbers in
[1,5]. No exception is raised, but the claimed score range fails. -/
theorem qcut_all_identical_scores_missing :
    fmScore [(1 : ℚ), 1] = [none, none] ∧
    ¬ ∀ o ∈ fmScore [(1 : ℚ), 1], ∃ k, o = some k ∧ 1 ≤ k ∧ k ≤ 5 := by
  constructor
  · decide
  · intro h
    obtain ⟨k, hk, -⟩ := h none (by decide)
    cases hk

theorem getD_mem_of_lt {l : List ℚ} {n : ℕ} (h : n < l.length) : l.getD n 0 ∈ l := by
  rw [List.getD_eq_getElem l 0 h]
  exact List.getElem_mem h

theorem sorted_getD_zero_le {l : List ℚ} (hs : l.Sorted (· ≤ ·)) {x : ℚ} (hx : x ∈ l) :
    l.getD 0 0 ≤ x := by
  cases l with
  | nil => cases hx
  | cons a t =>
    rcases List.mem_cons.mp hx with h | h
    · exact h ▸ le_refl a
    · exact (List.sorted_cons.mp hs).1 x h

theorem le_sorted_getD_last {l : List ℚ} (hs : l.Sorted (· ≤ ·)) {x : ℚ} (hx : x ∈ l) :
    x ≤ l.getD (l.length - 1) 0 := by
  induction l with
  | nil => cases hx
  | cons a t ih =>
    cases t with
    | nil =>
      rcases List.mem_cons.mp hx with h | h
      · simp [h]
      · cases h
    | cons b u =>
      have hgd : (a :: b :: u).getD ((a :: b :: u).length - 1) 0 =
          (b :: u).getD ((b :: u).length - 1) 0 := by
        simp [List.getD_cons_succ]
      rw [hgd]
      rcases List.mem_cons.mp hx with h | h
      · subst h
        have hlast : (b :: u).getD ((b :: u).length - 1) 0 ∈ b :: u :=
          getD_mem_of_lt (by simp)
        exact le_trans ((List.sorted_cons.mp hs).1 _ hlast) (le_refl _)
      · exact ih (List.sorted_cons.mp hs).2 h

theorem sorted_getD_succ {l : List ℚ} (hs : l.Sorted (· ≤ ·)) {f : ℕ}
    (h : f + 1 < l.length) : l.getD f 0 ≤ l.getD (f + 1) 0 := by
  induction l generalizing f with
  | nil => simp at h
  | cons a t ih =>
    cases f with
    | zero =>
      cases t with
      | nil => simp at h
      | cons b u => exact (List.sorted_cons.mp hs).1 b (List.mem_cons_self _ _)
    | succ g =>
      rw [List.getD_cons_succ, List.getD_cons_succ]
      exact ih (List.sorted_cons.mp hs).2 (by simpa using h)

theorem getD_default_irrel {l : List ℚ} {n : ℕ} (h : n < l.length) (d : ℚ) :
    l.getD n d = l.getD n 0 := by
  rw [List.getD_eq_getElem l d h, List.getD_eq_getElem l 0 h]

theorem quantileAt_range {l : List ℚ} (hne : l ≠ []) (hs : l.Sorted (· ≤ ·))
    {q : ℚ} (h0 : 0 ≤ q) (h1 : q ≤ 1) :
    l.getD 0 0 ≤ quantileAt l q ∧ quantileAt l q ≤ l.getD (l.length - 1) 0 := by
  have hval : quantileAt l q =
      l.getD ((⌊q * ((l.length : ℚ) - 1)⌋).toNat) 0 +
        (q * ((l.length : ℚ) - 1) - (((⌊q * ((l.length : ℚ) - 1)⌋).toNat : ℕ) : ℚ)) *
        (l.getD ((⌊q * ((l.length : ℚ) - 1)⌋).toNat + 1)
            (l.getD ((⌊q * ((l.length : ℚ) - 1)⌋).toNat) 0) -
          l.getD ((⌊q * ((l.length : ℚ) - 1)⌋).toNat) 0) := rfl
  have hn : 1 ≤ l.length := List.length_pos.mpr hne
  set pos : ℚ := q * ((l.length : ℚ) - 1) with hposdef
  set f : ℕ := (⌊pos⌋).toNat with hfdef
  have hn1 : (1 : ℚ) ≤ (l.length : ℚ) := by exact_mod_cast hn
  have hpos0 : 0 ≤ pos := mul_nonneg h0 (by linarith)
  have hposle : pos ≤ (l.length : ℚ) - 1 := by
    rw [hposdef]
    exact mul_le_of_le_one_left (by linarith) h1
  have hfeq : (f : ℤ) = ⌊pos⌋ := Int.toNat_of_nonneg (Int.floor_nonneg.mpr hpos0)
  have hffloor : (f : ℚ) ≤ pos := by
    have h' := Int.floor_le pos
    have : ((f : ℤ) : ℚ) ≤ pos := hfeq ▸ h'
    exact_mod_cast this
  have hfrac1 : pos < (f : ℚ) + 1 := by
    have h' := Int.lt_floor_add_one pos
    have : pos < ((f : ℤ) : ℚ) + 1 := by rw [hfeq]; exact h'
    exact_mod_cast this
  have hflt : f < l.length := by
    have hq : (f : ℚ) < (l.length : ℚ) := by linarith
    exact_mod_cast hq
  have hmem_a : l.getD f 0 ∈ l := getD_mem_of_lt hflt
  have hlow : l.getD 0 0 ≤ l.getD f 0 := sorted_getD_zero_le hs hmem_a
  have hhigh : l.getD f 0 ≤ l.getD (l.length - 1) 0 := le_sorted_getD_last hs hmem_a
  by_cases h2 : f + 1 < l.length
  · have hb : l.getD (f + 1) (l.getD f 0) = l.getD (f + 1) 0 := getD_default_irrel h2 _
    have hab : l.getD f 0 ≤ l.getD (f + 1) 0 := sorted_getD_succ hs h2
    have hmem_b : l.getD (f + 1) 0 ∈ l := getD_mem_of_lt h2
    have hbhigh : l.getD (f + 1) 0 ≤ l.getD (l.length - 1) 0 := le_sorted_getD_last hs hmem_b
    rw [hval, hb]
    constructor
    · nlinarith [hab, hffloor, hfrac1]
    · nlinarith [hab, hffloor, hfrac1, hbhigh]
  · have hb : l.getD (f + 1) (l.getD f 0) = l.getD f 0 :=
      List.getD_eq_default _ _ (by omega)
    rw [hval, hb]
    constructor
    · nlinarith [hffloor, hfrac1]
    · nlinarith [hffloor, hfrac1, hhigh]

theorem quantileAt_zero (l : List ℚ) : quantileAt l 0 = l.getD 0 0 := by
  simp [quantileAt]

theorem quantileAt_one {l : List ℚ} (hne : l ≠ []) :
    quantileAt l 1 = l.getD (l.length - 1) 0 := by
  have hn : 1 ≤ l.length := List.length_pos.mpr hne
  have hcast : ((l.length : ℚ) - 1) = ((l.length - 1 : ℕ) : ℚ) := by
    rw [Nat.cast_sub hn, Nat.cast_one]
  simp only [quantileAt, one_mul]
  rw [hcast, Int.floor_natCast, Int.toNat_natCast, sub_self, zero_mul, add_zero]

theorem insertionSort_ne_nil {vals : List ℚ} (hne : vals ≠ []) :
    vals.insertionSort (· ≤ ·) ≠ [] := by
  intro h
  apply hne
  apply List.eq_nil_of_length_eq_zero
  have hl := List.length_insertionSort (α := ℚ) (· ≤ ·) vals
  rw [h] at hl
  exact hl.symm

theorem edges_length (vals : List ℚ) : (edges vals).length = 6 := by
  rw [edges, List.length_map, List.length_range]

theorem edges_bounds {vals : List ℚ} (hne : vals ≠ []) :
    ∀ e ∈ edges vals,
      (vals.insertionSort (· ≤ ·)).getD 0 0 ≤ e ∧
      e ≤ (vals.insertionSort (· ≤ ·)).getD ((vals.insertionSort (· ≤ ·)).length - 1) 0 := by
  intro e he
  rw [edges] at he
  obtain ⟨j, hj, hje⟩ := List.mem_map.mp he
  have hjr : j < 6 := List.mem_range.mp hj
  rw [← hje]
  refine quantileAt_range (insertionSort_ne_nil hne) (List.sorted_insertionSort _ _) ?_ ?_
  · positivity
  · rw [div_le_one (by norm_num)]
    exact_mod_cast Nat.le_of_lt_succ hjr

theorem min_mem_edges (vals : List ℚ) :
    (vals.insertionSort (· ≤ ·)).getD 0 0 ∈ edges vals := by
  rw [edges]
  refine List.mem_map.mpr ⟨0, List.mem_range.mpr (by norm_num), ?_⟩
  norm_num [quantileAt_zero]

theorem max_mem_edges {vals : List ℚ} (hne : vals ≠ []) :
    (vals.insertionSort (· ≤ ·)).getD ((vals.insertionSort (· ≤ ·)).length - 1) 0 ∈
      edges vals := by
  rw [edges]
  refine List.mem_map.mpr ⟨5, List.mem_range.mpr (by norm_num), ?_⟩
  have h5 : ((5 : ℕ) : ℚ) / 5 = 1 := by norm_num
  rw [h5, quantileAt_one (insertionSort_ne_nil hne)]

theorem mem_uniqueEdges {es : List ℚ} {x : ℚ} : x ∈ uniqueEdges es ↔ x ∈ es := by
  rw [uniqueEdges, List.mem_dedup]
  exact (List.perm_insertionSort _ _).mem_iff

theorem uniqueEdges_sorted (es : List ℚ) : (uniqueEdges es).Sorted (· ≤ ·) :=
  List.Pairwise.sublist (List.dedup_sublist _) (List.sorted_insertionSort _ _)

theorem uniqueEdges_length_le (es : List ℚ) : (uniqueEdges es).length ≤ es.length := by
  calc (uniqueEdges es).length ≤ (es.insertionSort (· ≤ ·)).length :=
        (List.dedup_sublist _).length_le
  _ = es.length := List.length_insertionSort _ _

theorem cutCode_spec {bins : List ℚ} {mn mx x : ℚ}
    (hsorted : bins.Sorted (· ≤ ·))
    (hmn : mn ∈ bins) (hmx : mx ∈ bins)
    (hmnall : ∀ b ∈ bins, mn ≤ b)
    (hlen : 2 ≤ bins.length)
    (hxl : mn ≤ x) (hxu : x ≤ mx) :
    ∃ k, cutCode bins x = some k ∧ k ≤ bins.length - 2 := by
  have hhead : bins.getD 0 0 = mn := by
    have h0 : 0 < bins.length := by omega
    exact le_antisymm (sorted_getD_zero_le hsorted hmn) (hmnall _ (getD_mem_of_lt h0))
  have hi0lt : bins.countP (fun b => decide (b < x)) < bins.length := by
    rcases lt_or_eq_of_le (List.countP_le_length (fun b => decide (b < x))) with h | h
    · exact h
    · exfalso
      have hall := List.countP_eq_length.mp h
      have hx := hall mx hmx
      rw [decide_eq_true_eq] at hx
      exact absurd hxu (not_le.mpr hx)
  simp only [cutCode]
  by_cases hx0 : bins.getD 0 0 = x
  · rw [if_pos hx0]
    have hno : ¬(1 = 0 ∨ 1 = bins.length) := by omega
    rw [if_neg hno]
    exact ⟨0, rfl, by omega⟩
  · rw [if_neg hx0]
    have hmnx : mn < x := lt_of_le_of_ne hxl (fun h => hx0 (by rw [hhead, h]))
    have hi0pos : 0 < bins.countP (fun b => decide (b < x)) :=
      List.countP_pos_iff.mpr ⟨mn, hmn, decide_eq_true hmnx⟩
    have hno : ¬(bins.countP (fun b => decide (b < x)) = 0 ∨
        bins.countP (fun b => decide (b < x)) = bins.length) := by omega
    rw [if_neg hno]
    exact ⟨_, rfl, by omega⟩

/-- C8 (amended): for every population whose metric column has at least two
distinct values, the quintile scoring completes with buckets despite any
duplicate-boundary collapse (the edges are deduplicated and the bucket count
reduced) and every resulting score is a number: the raw codes are ≤ 4, so
the F/M scores `code+1` and the R score `6-(code+1)` all lie in [1,5]. When
a column is entirely constant the codes are missing (`none`) instead — see
the counterexample — though no exception is raised either way (the scoring
functions are total). -/
theorem qcut_scores_spec (vals : List ℚ)
    (hex : ∃ a ∈ vals, ∃ b ∈ vals, a ≠ b) :
    (∀ o ∈ qcutDrop5 vals, ∃ k, o = some k ∧ k ≤ 4) ∧
    (∀ o ∈ fmScore vals, ∃ k, o = some k ∧ 1 ≤ k ∧ k ≤ 5) ∧
    (∀ o ∈ rScore vals, ∃ k, o = some k ∧ 1 ≤ k ∧ k ≤ 5) := by
  obtain ⟨a, ha, b, hb, hab⟩ := hex
  have hne : vals ≠ [] := by
    rintro rfl
    cases ha
  have hSsorted : (vals.insertionSort (· ≤ ·)).Sorted (· ≤ ·) :=
    List.sorted_insertionSort _ _
  have hmemS : ∀ y ∈ vals, y ∈ vals.insertionSort (· ≤ ·) := fun y hy =>
    (List.perm_insertionSort _ _).mem_iff.mpr hy
  have hbounds : ∀ y ∈ vals,
      (vals.insertionSort (· ≤ ·)).getD 0 0 ≤ y ∧
      y ≤ (vals.insertionSort (· ≤ ·)).getD ((vals.insertionSort (· ≤ ·)).length - 1) 0 :=
    fun y hy => ⟨sorted_getD_zero_le hSsorted (hmemS y hy),
      le_sorted_getD_last hSsorted (hmemS y hy)⟩
  have hmnle : (vals.insertionSort (· ≤ ·)).getD 0 0 ≤
      (vals.insertionSort (· ≤ ·)).getD ((vals.insertionSort (· ≤ ·)).length - 1) 0 :=
    le_trans (hbounds a ha).1 (hbounds a ha).2
  have hmnmx : (vals.insertionSort (· ≤ ·)).getD 0 0 <
      (vals.insertionSort (· ≤ ·)).getD ((vals.insertionSort (· ≤ ·)).length - 1) 0 := by
    rcases eq_or_lt_of_le hmnle with heq | h
    · exfalso
      have ha2 : a ≤ (vals.insertionSort (· ≤ ·)).getD 0 0 := by
        rw [heq]
        exact (hbounds a ha).2
      have hb2 : b ≤ (vals.insertionSort (· ≤ ·)).getD 0 0 := by
        rw [heq]
        exact (hbounds b hb).2
      have haeq := le_antisymm ha2 (hbounds a ha).1
      have hbeq := le_antisymm hb2 (hbounds b hb).1
      exact hab (haeq.trans hbeq.symm)
    · exact h
  have hmnbins : (vals.insertionSort (· ≤ ·)).getD 0 0 ∈ uniqueEdges (edges vals) :=
    mem_uniqueEdges.mpr (min_mem_edges vals)
  have hmxbins :
      (vals.insertionSort (· ≤ ·)).getD ((vals.insertionSort (· ≤ ·)).length - 1) 0 ∈
        uniqueEdges (edges vals) :=
    mem_uniqueEdges.mpr (max_mem_edges hne)
  have hballs : ∀ y ∈ uniqueEdges (edges vals),
      (vals.insertionSort (· ≤ ·)).getD 0 0 ≤ y := fun y hy =>
    (edges_bounds hne y (mem_uniqueEdges.mp hy)).1
  have hlen2 : 2 ≤ (uniqueEdges (edges vals)).length := by
    rcases hbl : uniqueEdges (edges vals) with _ | ⟨c, _ | ⟨d, t⟩⟩
    · rw [hbl] at hmnbins
      cases hmnbins
    · rw [hbl] at hmnbins hmxbins
      have h1 := List.mem_singleton.mp hmnbins
      have h2 := List.mem_singleton.mp hmxbins
      rw [h1, h2] at hmnmx
      exact absurd hmnmx (lt_irrefl _)
    · simp
  have hlen6 : (uniqueEdges (edges vals)).length ≤ 6 := by
    calc (uniqueEdges (edges vals)).length ≤ (edges vals).length :=
          uniqueEdges_length_le _
    _ = 6 := edges_length vals
  have hmain : ∀ o ∈ qcutDrop5 vals, ∃ k, o = some k ∧ k ≤ 4 := by
    intro o ho
    rw [qcutDrop5] at ho
    obtain ⟨x, hx, hxo⟩ := List.mem_map.mp ho
    obtain ⟨k, hk, hk4⟩ := cutCode_spec (uniqueEdges_sorted _) hmnbins hmxbins hballs
      hlen2 (hbounds x hx).1 (hbounds x hx).2
    exact ⟨k, by rw [← hxo, hk], by omega⟩
  refine ⟨hmain, ?_, ?_⟩
  · intro o ho
    rw [fmScore] at ho
    obtain ⟨o', ho', hoo⟩ := List.mem_map.mp ho
    obtain ⟨k, hk, hk4⟩ := hmain o' ho'
    refine ⟨k + 1, ?_, by omega, by omega⟩
    rw [← hoo, hk]
    rfl
  · intro o ho
    rw [rScore] at ho
    obtain ⟨o', ho', hoo⟩ := List.mem_map.mp ho
    obtain ⟨k, hk, hk4⟩ := hmain o' ho'
    refine ⟨5 - k, ?_, by omega, by omega⟩
    rw [← hoo, hk]
    rfl

/-- Witness for `qcut_scores_spec` on the two-valued column `[1, 2]`. -/
theorem qcut_scores_spec_witness :
    ∃ k, (qcutDrop5 [(1 : ℚ), 2]).headD none = some k ∧ k ≤ 4 :=
  (qcut_scores_spec [(1 : ℚ), 2] ⟨1, by decide, 2, by decide, by decide⟩).1
    ((qcutDrop5 [(1 : ℚ), 2]).headD none) (by decide)

/-- Support of an itemset over a basket list: (#baskets containing the
itemset) / (#baskets). A basket is the set of stock codes of one invoice
(one-hot row of the basket matrix). -/
def support (X : Finset ℕ) (B : List (Finset ℕ)) : ℚ :=
  (B.countP (fun b => decide (X ⊆ b)) : ℚ) / (B.length : ℚ)

/-- All items appearing in some basket (the columns of the basket matrix). -/
def itemUniverse (B : List (Finset ℕ)) : Finset ℕ := B.foldr (· ∪ ·) ∅

/-- Modelled from the spec: level `k` of the Apriori miner
(`mlxtend.frequent_patterns.apriori`, whose code is not part of this
repository); §4.4: level-wise search where a size-`k+1` candidate is kept
only if its every `k`-subset survived the previous level (downward-closure
pruning) and its support clears `min_support`. -/
def aprioriLevel (B : List (Finset ℕ)) (s : ℚ) : ℕ → Finset (Finset ℕ)
  | 0 => {∅}
  | k + 1 =>
    ((itemUniverse B).powersetCard (k + 1)).filter
      (fun X => (∀ Y ∈ X.powersetCard k, Y ∈ aprioriLevel B s k) ∧ s ≤ support X B)

/-- Modelled from the spec: the frequent itemsets of size 1..maxLen returned
by the Apriori miner. -/
def apriori (B : List (Finset ℕ)) (s : ℚ) (maxLen : ℕ) : Finset (Finset ℕ) :=
  (Finset.range maxLen).biUnion (fun k => aprioriLevel B s (k + 1))

theorem mem_itemUniverse_of_mem_basket {B : List (Finset ℕ)} {b : Finset ℕ}
    (hb : b ∈ B) : b ⊆ itemUniverse B := by
  induction B with
  | nil => cases hb
  | cons c t ih =>
    rcases List.mem_cons.mp hb with h | h
    · exact h ▸ Finset.subset_union_left
    · exact subset_trans (ih h) Finset.subset_union_right

theorem exists_basket_of_support_pos {X : Finset ℕ} {B : List (Finset ℕ)}
    (h : 0 < support X B) : ∃ b ∈ B, X ⊆ b := by
  by_contra hno
  push_neg at hno
  have hcount : B.countP (fun b => decide (X ⊆ b)) = 0 := by
    apply List.countP_eq_zero.mpr
    intro b hb
    simpa using hno b hb
  rw [support, hcount] at h
  norm_num at h

theorem support_anti {X Y : Finset ℕ} {B : List (Finset ℕ)} (hXY : Y ⊆ X) :
    support X B ≤ support Y B := by
  have hc : B.countP (fun b => decide (X ⊆ b)) ≤ B.countP (fun b => decide (Y ⊆ b)) := by
    apply List.countP_mono_left
    intro b _ hb
    rw [decide_eq_true_eq] at hb ⊢
    exact subset_trans hXY hb
  unfold support
  rcases Nat.eq_zero_or_pos B.length with hz | hpos
  · rw [hz]
    norm_num
  · have hlen : (0 : ℚ) < (B.length : ℚ) := by exact_mod_cast hpos
    exact (div_le_div_iff_of_pos_right hlen).mpr (by exact_mod_cast hc)

theorem mem_aprioriLevel_card {B : List (Finset ℕ)} {s : ℚ} {k : ℕ} {X : Finset ℕ}
    (h : X ∈ aprioriLevel B s (k + 1)) : X.card = k + 1 ∧ s ≤ support X B := by
  rw [aprioriLevel, Finset.mem_filter, Finset.mem_powersetCard] at h
  exact ⟨h.1.2, h.2.2⟩

theorem mem_aprioriLevel_of_frequent {B : List (Finset ℕ)} {s : ℚ} (hs : 0 < s) :
    ∀ k (X : Finset ℕ), X.card = k → s ≤ support X B → X ∈ aprioriLevel B s k := by
  intro k
  induction k with
  | zero =>
    intro X hcard _
    rw [Finset.card_eq_zero.mp hcard]
    simp [aprioriLevel]
  | succ k ih =>
    intro X hcard hsup
    rw [aprioriLevel, Finset.mem_filter, Finset.mem_powersetCard]
    obtain ⟨b, hb, hXb⟩ := exists_basket_of_support_pos (lt_of_lt_of_le hs hsup)
    refine ⟨⟨subset_trans hXb (mem_itemUniverse_of_mem_basket hb), hcard⟩, ?_, hsup⟩
    intro Y hY
    rw [Finset.mem_powersetCard] at hY
    exact ih Y hY.2 (le_trans hsup (support_anti hY.1))

/-- C7: soundness and completeness of the (spec-modelled) Apriori miner —
every returned itemset has support ≥ min_support, and every non-empty
itemset within the length cap whose support clears min_support (its
(k−1)-subsets then being frequent too) is returned. -/
theorem apriori_sound_complete (B : List (Finset ℕ)) (s : ℚ)
    (hs0 : 0 < s) (_hs1 : s < 1) (maxLen : ℕ) :
    (∀ X ∈ apriori B s maxLen, s ≤ support X B) ∧
    (∀ X : Finset ℕ, 1 ≤ X.card → X.card ≤ maxLen → s ≤ support X B →
      (∀ Y ∈ X.powersetCard (X.card - 1), s ≤ support Y B) →
      X ∈ apriori B s maxLen) := by
  constructor
  · intro X hX
    rw [apriori, Finset.mem_biUnion] at hX
    obtain ⟨k, -, hk⟩ := hX
    exact (mem_aprioriLevel_card hk).2
  · intro X hc1 hcm hsup _
    rw [apriori, Finset.mem_biUnion]
    refine ⟨X.card - 1, Finset.mem_range.mpr (by omega), ?_⟩
    exact mem_aprioriLevel_of_frequent hs0 (X.card - 1 + 1) X (by omega) hsup

/-- Basket list of the witness: two baskets, items {1,2} and {1}. -/
def basketsW : List (Finset ℕ) := [{1, 2}, {1}]

/-- Witness for `apriori_sound_complete`: the pair {1,2} has support 1/2 and
is returned at min_support 1/2, max length 2. -/
theorem apriori_sound_complete_witness :
    ({1, 2} : Finset ℕ) ∈ apriori basketsW (1/2) 2 ∧
    (1/2 : ℚ) ≤ support {1, 2} basketsW :=
  ⟨(apriori_sound_complete basketsW (1/2) (by norm_num) (by norm_num) 2).2
      {1, 2} (by decide) (by decide) (by decide) (by decide),
   by decide⟩

/-- An association rule row as produced by `mlxtend.association_rules`:
antecedents, consequents (disjoint by construction), and the support,
confidence and lift metrics. -/
structure ARule where
  antecedents : Finset ℕ
  consequents : Finset ℕ
  support : ℚ
  confidence : ℚ
  lift : ℚ
deriving DecidableEq

/-- Modelled from the spec (§4.5) and
`mlxtend.association_rules(metric="confidence", min_threshold=minConf)`,
whose code is not part of this repository: for every frequent itemset of
size ≥ 2, every non-empty proper subset is an antecedent, the complement the
consequent; `confidence = support(X)/support(antecedent)`,
`lift = confidence/support(consequent)`; rules below `minConf` are
dropped. -/
def genRules (B : List (Finset ℕ)) (fis : Finset (Finset ℕ)) (minConf : ℚ) : Finset ARule :=
  (fis.filter (fun X => 2 ≤ X.card)).biUnion (fun X =>
    ((X.powerset.filter (fun A => A ≠ ∅ ∧ A ≠ X)).filter
        (fun A => minConf ≤ support X B / support A B)).image
      (fun A => ⟨A, X \ A, support X B, support X B / support A B,
        support X B / support A B / support (X \ A) B⟩))

/-- `rule['confidence'] * rule['lift']`, the "score" of
`generate_recommendations` (sales_manager_api.py, line 609). -/
def score (r : ARule) : ℚ := r.confidence * r.lift

/-- Negated score: ascending in this key is descending in the score. -/
def scoreKey (r : ARule) : ℚ := -score r

/-- Sort key of `segment_basket_analysis`
(`sort_values(['confidence','lift'], ascending=False)`, marketing_api.py
line 669). -/
def segKey (r : ARule) : Lex (ℚ × ℚ) := toLex (-r.confidence, -r.lift)

/-- Sort key of `market_basket_analysis`
(`sort_values(['lift','confidence'], ascending=False)`, marketing_api.py
line 789). -/
def mbaKey (r : ARule) : Lex (ℚ × ℚ) := toLex (-r.lift, -r.confidence)

/-- The ranking key exactly as the spec sentence words it: score descending,
ties by lift then support, both descending; written from the claim only to
compare it with the three source rankings. -/
def specKey (r : ARule) : Lex (ℚ × Lex (ℚ × ℚ)) :=
  toLex (-score r, toLex (-r.lift, -r.support))

instance : DecidableRel (fun a b : ARule => scoreKey a ≤ scoreKey b) :=
  fun a b => inferInstanceAs (Decidable (scoreKey a ≤ scoreKey b))

instance : DecidableRel (fun a b : ARule => segKey a ≤ segKey b) :=
  fun a b => inferInstanceAs (Decidable (segKey a ≤ segKey b))

instance : DecidableRel (fun a b : ARule => mbaKey a ≤ mbaKey b) :=
  fun a b => inferInstanceAs (Decidable (mbaKey a ≤ mbaKey b))

instance : DecidableRel (fun a b : ARule => specKey a ≤ specKey b) :=
  fun a b => inferInstanceAs (Decidable (specKey a ≤ specKey b))

instance : IsTotal ARule (fun a b : ARule => scoreKey a ≤ scoreKey b) :=
  ⟨fun _ _ => le_total _ _⟩

instance : IsTrans ARule (fun a b : ARule => scoreKey a ≤ scoreKey b) :=
  ⟨fun _ _ _ => le_trans⟩

instance : IsTotal ARule (fun a b : ARule => segKey a ≤ segKey b) :=
  ⟨fun _ _ => le_total _ _⟩

instance : IsTrans ARule (fun a b : ARule => segKey a ≤ segKey b) :=
  ⟨fun _ _ _ => le_trans⟩

instance : IsTotal ARule (fun a b : ARule => mbaKey a ≤ mbaKey b) :=
  ⟨fun _ _ => le_total _ _⟩

instance : IsTrans ARule (fun a b : ARule => mbaKey a ≤ mbaKey b) :=
  ⟨fun _ _ _ => le_trans⟩

instance : IsTotal ARule (fun a b : ARule => specKey a ≤ specKey b) :=
  ⟨fun _ _ => le_total _ _⟩

instance : IsTrans ARule (fun a b : ARule => specKey a ≤ specKey b) :=
  ⟨fun _ _ _ => le_trans⟩

/-- Ranking of `generate_recommendations` (sales_manager_api.py, lines
608-610): sort by `score = confidence*lift` descending, take `top_n`. -/
def rankGenRecs (rs : List ARule) (n : ℕ) : List ARule :=
  (rs.insertionSort (fun a b => scoreKey a ≤ scoreKey b)).take n

/-- Ranking of `segment_basket_analysis` (marketing_api.py, line 669):
sort by (confidence, lift) descending, take `top_n`. -/
def rankSegmentBasket (rs : List ARule) (n : ℕ) : List ARule :=
  (rs.insertionSort (fun a b => segKey a ≤ segKey b)).take n

/-- Ranking of `market_basket_analysis` (marketing_api.py, line 789):
sort by (lift, confidence) descending, take `top_n`. -/
def rankMarketBasket (rs : List ARule) (n : ℕ) : List ARule :=
  (rs.insertionSort (fun a b => mbaKey a ≤ mbaKey b)).take n

/-- The ranking the spec sentence describes, for comparison. -/
def rankPerSpec (rs : List ARule) (n : ℕ) : List ARule :=
  (rs.insertionSort (fun a b => specKey a ≤ specKey b)).take n

/-- 20 invoice baskets producing the two counterexample rules: item 2 is in
18 baskets, item 1 in 10, together in 9; item 3 in 10, item 4 in 5, always
together with 3. -/
def baskets20 : List (Finset ℕ) :=
  [{1, 2, 3, 4}, {1, 2, 3, 4}, {1, 2, 3, 4}, {1, 2, 3, 4}, {1, 2, 3, 4},
   {1, 2}, {1, 2}, {1, 2}, {1, 2}, {1, 3},
   {2, 3}, {2, 3}, {2, 3}, {2, 3}, {2},
   {2}, {2}, {2}, {2}, {5}]

/-- Rule {1}→{2}: support 9/20, confidence 0.9, lift 1, score 0.9. -/
def ruleHighConf : ARule := ⟨{1}, {2}, 9/20, 9/10, 1⟩

/-- Rule {3}→{4}: support 1/4, confidence 0.5, lift 2, score 1. -/
def ruleHighLift : ARule := ⟨{3}, {4}, 1/4, 1/2, 2⟩

set_option maxRecDepth 100000 in
set_option maxHeartbeats 2000000 in
/-- C3 (counterexample): both rules are produced by the rule generator on
`baskets20` (min_support 0.2, max length 2, min_confidence 0.5), yet the
rankings disagree with the claim: the spec key (score desc, ties by lift
then support) puts {3}→{4} (score 1) before {1}→{2} (score 0.9), and so
does `market_basket_analysis` (lift desc), but `segment_basket_analysis`
sorts by confidence first and returns the opposite order — so the claimed
uniform score-primary ranking with lift/support tie-breaks is wrong. -/
theorem rule_ranking_ne_claim :
    ruleHighConf ∈ genRules baskets20 (apriori baskets20 (1/5) 2) (1/2) ∧
    ruleHighLift ∈ genRules baskets20 (apriori baskets20 (1/5) 2) (1/2) ∧
    rankPerSpec [ruleHighConf, ruleHighLift] 10 = [ruleHighLift, ruleHighConf] ∧
    rankSegmentBasket [ruleHighConf, ruleHighLift] 10 = [ruleHighConf, ruleHighLift] ∧
    rankMarketBasket [ruleHighConf, ruleHighLift] 10 = [ruleHighLift, ruleHighConf] ∧
    rankSegmentBasket [ruleHighConf, ruleHighLift] 10 ≠
      rankPerSpec [ruleHighConf, ruleHighLift] 10 := by
  decide

/-- C3 (amended): the three services rank rules differently and none uses a
support tie-break: `generate_recommendations` sorts by
`score = confidence*lift` descending; `segment_basket_analysis` sorts by
(confidence, lift) descending; `market_basket_analysis` sorts by
(lift, confidence) descending; each truncates to the top_n
highest-ranked rules (output length `min top_n (#rules)`, drawn from the
input rule set). -/
theorem rule_rankings_spec (rs : List ARule) (n : ℕ) :
    ((rankGenRecs rs n).Sorted (fun a b => score b ≤ score a) ∧
      (rankGenRecs rs n).length = min n rs.length ∧
      ∀ r ∈ rankGenRecs rs n, r ∈ rs) ∧
    ((rankSegmentBasket rs n).Sorted (fun a b =>
        b.confidence < a.confidence ∨ (a.confidence = b.confidence ∧ b.lift ≤ a.lift)) ∧
      (rankSegmentBasket rs n).length = min n rs.length ∧
      ∀ r ∈ rankSegmentBasket rs n, r ∈ rs) ∧
    ((rankMarketBasket rs n).Sorted (fun a b =>
        b.lift < a.lift ∨ (a.lift = b.lift ∧ b.confidence ≤ a.confidence)) ∧
      (rankMarketBasket rs n).length = min n rs.length ∧
      ∀ r ∈ rankMarketBasket rs n, r ∈ rs) := by
  refine ⟨⟨?_, ?_, ?_⟩, ⟨?_, ?_, ?_⟩, ⟨?_, ?_, ?_⟩⟩
  · apply List.Pairwise.imp ?_
      (List.Pairwise.sublist (List.take_sublist _ _) (List.sorted_insertionSort _ rs))
    intro a b hab
    have h := hab
    rw [scoreKey, scoreKey, neg_le_neg_iff] at h
    exact h
  · rw [rankGenRecs, List.length_take, List.length_insertionSort]
  · intro r hr
    exact (List.perm_insertionSort _ _).mem_iff.mp (List.mem_of_mem_take hr)
  · apply List.Pairwise.imp ?_
      (List.Pairwise.sublist (List.take_sublist _ _) (List.sorted_insertionSort _ rs))
    intro a b hab
    rw [segKey, segKey, Prod.Lex.le_iff] at hab
    rcases hab with h | ⟨h1, h2⟩
    · exact Or.inl (by simpa using h)
    · exact Or.inr ⟨by simpa using h1, by simpa using h2⟩
  · rw [rankSegmentBasket, List.length_take, List.length_insertionSort]
  · intro r hr
    exact (List.perm_insertionSort _ _).mem_iff.mp (List.mem_of_mem_take hr)
  · apply List.Pairwise.imp ?_
      (List.Pairwise.sublist (List.take_sublist _ _) (List.sorted_insertionSort _ rs))
    intro a b hab
    rw [mbaKey, mbaKey, Prod.Lex.le_iff] at hab
    rcases hab with h | ⟨h1, h2⟩
    · exact Or.inl (by simpa using h)
    · exact Or.inr ⟨by simpa using h1, by simpa using h2⟩
  · rw [rankMarketBasket, List.length_take, List.length_insertionSort]
  · intro r hr
    exact (List.perm_insertionSort _ _).mem_iff.mp (List.mem_of_mem_take hr)

/-- `market_basket_analysis` (marketing_api.py, lines 733-849), from the
encoded basket matrix on: run the (spec-modelled) Apriori miner with no
length cap (every itemset fits within the item-universe size); if no
frequent itemset is found, return success with an empty bundle list ("No
frequent itemsets found. Try lowering min_support."); otherwise derive
rules; if none clears min_confidence, return success with an empty bundle
list ("No rules found. Try lowering min_confidence."); otherwise return the
rule set (whose (lift, confidence)-descending top-n presentation is
`rankMarketBasket`). -/
def market_basket_analysis (Bk : List (Finset ℕ)) (minSup minConf : ℚ) :
    Except String (Bool × Finset ARule) :=
  if apriori Bk minSup (itemUniverse Bk).card = ∅ then .ok (true, ∅)
  else if genRules Bk (apriori Bk minSup (itemUniverse Bk).card) minConf = ∅ then .ok (true, ∅)
  else .ok (true, genRules Bk (apriori Bk minSup (itemUniverse Bk).card) minConf)

/-- C9: when no non-empty itemset clears min_support, or no rule clears
min_confidence, the mining entry point returns a successful result with an
empty rule set rather than an error. -/
theorem mba_empty_result (Bk : List (Finset ℕ)) (minSup minConf : ℚ)
    (h : (∀ X : Finset ℕ, X.Nonempty → support X Bk < minSup) ∨
      genRules Bk (apriori Bk minSup (itemUniverse Bk).card) minConf = ∅) :
    market_basket_analysis Bk minSup minConf = .ok (true, ∅) := by
  rcases h with h | h
  · have hap : apriori Bk minSup (itemUniverse Bk).card = ∅ := by
      rw [Finset.eq_empty_iff_forall_not_mem]
      intro X hX
      rw [apriori, Finset.mem_biUnion] at hX
      obtain ⟨k, -, hk⟩ := hX
      obtain ⟨hcard, hsup⟩ := mem_aprioriLevel_card hk
      have hne : X.Nonempty := Finset.card_pos.mp (by omega)
      exact absurd hsup (not_le.mpr (h X hne))
    rw [market_basket_analysis, if_pos hap]
  · rw [market_basket_analysis, h]
    split <;> simp

/-- Witness for `mba_empty_result`: two disjoint singleton baskets at
min_support 1/4 yield frequent singletons but no size-2 itemset, hence no
rule at all. -/
theorem mba_empty_result_witness :
    market_basket_analysis [{1}, {2}] (1/4) (1/2) = .ok (true, ∅) :=
  mba_empty_result [{1}, {2}] (1/4) (1/2) (Or.inr (by decide))

end DSS
